import Mathlib

/-!
Verification of the per-connection lifecycle manager in
src/hypercorn/trio/server.py, as a shallow embedding.

The trio coroutine methods of the Server class are translated into pure
Lean functions over explicit state.  External effects (stream reads and
writes, the outcome of send_eof, the protocol idle flag) are drawn from
explicit oracle lists, and every transport or protocol interaction is
recorded in a trace of actions, so that temporal claims about the code
become statements about the produced traces.  Exceptions are modelled by
an explicit result of type Option Exc.
-/

namespace HypercornTrioServer

/-- Raw bytes on the wire, one natural per byte. -/
abbrev Bytes := List Nat

/-- The inbound events fed to Protocol.handle (hypercorn.events):
RawData carries bytes read from the stream, Closed signals closure. -/
inductive InEvent
  | rawData (data : Bytes)
  | closed
deriving DecidableEq, Repr

/-- The outbound events the protocol engine passes to Server.protocol_send:
the same tagged union of RawData and Closed. -/
inductive OutEvent
  | rawData (data : Bytes)
  | closed
deriving DecidableEq, Repr

/-- The exception values relevant to the code under verification.
`cancelled` is trio.Cancelled (a BaseException), `multiError` is
trio.MultiError with its contained exceptions, the remaining
constructors are the concrete Exception classes the code catches plus a
stand-in `otherException` for any other Exception (for example one
raised by the hosted ASGI application or by protocol.initiate). -/
inductive Exc
  | cancelled
  | multiError (excs : List Exc)
  | brokenResource
  | closedResource
  | busyResource
  | tooSlow
  | attributeError
  | otherException

/-- trio.MultiError construction: MultiError(excs) collapses, returning
the lone exception unwrapped when excs has exactly one element, and a
real MultiError object only when there are two or more.  This is the
aggregation a nursery performs on the exceptions that survive to its
boundary. -/
def collapse : List Exc → Option Exc
  | [] => none
  | [e] => some e
  | es => some (.multiError es)

mutual

/-- The effect of MultiError.filter with a handler that deletes
trio.Cancelled leaves and keeps everything else: returns none when every
leaf was a Cancelled, otherwise the surviving (collapsed) exception. -/
def filterCancelled : Exc → Option Exc
  | .cancelled => none
  | .multiError es => collapse (filterCancelledList es)
  | e => some e

/-- filterCancelled applied across the exceptions of a MultiError,
dropping the fully-cancelled ones. -/
def filterCancelledList : List Exc → List Exc
  | [] => []
  | e :: rest =>
    match filterCancelled e with
    | none => filterCancelledList rest
    | some f => f :: filterCancelledList rest

end

/-- Observable actions performed by the server code, recorded in order. -/
inductive Action
  | doHandshake                 -- stream.do_handshake() attempted
  | initiate                    -- protocol.initiate()
  | receiveSome                 -- stream.receive_some(MAX_RECV) attempted
  | handle (e : InEvent)        -- protocol.handle(event)
  | kaRefresh (idle : Bool)     -- _update_keep_alive_timeout ran, protocol.idle read
  | cancelTimer (h : Nat)       -- CancelScope.cancel() on timer handle h
  | startTimer (h : Nat)        -- nursery.start(_call_later, ...) returning handle h
  | lockAcquire                 -- send_lock acquired
  | sendAll (data : Bytes)      -- stream.send_all(data) attempted
  | lockRelease                 -- send_lock released
  | sendEofCall                 -- stream.send_eof() attempted
  | aclose                      -- stream.aclose()
  | logException                -- config.log.exception("Error in ASGI Framework")
  | sendNone                    -- send(None): the sentinel end-of-response signal
deriving DecidableEq, Repr

/-- State of one _call_later cancel scope started by the keep-alive
machinery: pending (still sleeping), fired (sleep completed, close action
run), or cancelled. -/
inductive TimerStatus
  | pending
  | fired
  | cancelled
deriving DecidableEq, Repr

/-- The mutable per-connection state of the Server object that the
claims depend on: whether the stream has been closed, the value of
_keep_alive_timeout_handle (an index into the pool of started timer
scopes), and the statuses of the started timer scopes. -/
structure ConnState where
  streamClosed : Bool
  kaHandle : Option Nat
  timers : List TimerStatus
deriving DecidableEq, Repr

/-- CancelScope.cancel() on timer handle h: a scope still sleeping is
cancelled; cancelling a scope that already fired, or was already
cancelled, is a no-op and does not error. -/
def cancelScope (timers : List TimerStatus) (h : Nat) : List TimerStatus :=
  match timers[h]? with
  | some .pending => timers.set h .cancelled
  | _ => timers

/-- Server._update_keep_alive_timeout, with protocol.idle passed in:
cancel the current handle if any, reset the handle to None, and, only if
the protocol is idle, start a fresh _call_later task and track its cancel
scope.  The kaRefresh action records that the re-evaluation ran. -/
def updateKeepAliveTimeout (idle : Bool) (c : ConnState) : ConnState × List Action :=
  let step1 :=
    match c.kaHandle with
    | some h => ({ c with timers := cancelScope c.timers h, kaHandle := none },
                 [Action.cancelTimer h])
    | none => ({ c with kaHandle := none }, ([] : List Action))
  let c1 := step1.1
  if idle then
    ({ c1 with kaHandle := some c1.timers.length, timers := c1.timers ++ [.pending] },
     Action.kaRefresh idle :: step1.2 ++ [Action.startTimer c1.timers.length])
  else
    (c1, Action.kaRefresh idle :: step1.2)

/-- The exceptions swallowed by the except clause around send_eof in
Server._close: BrokenResourceError, AttributeError (an SSL stream has no
send_eof), BusyResourceError, ClosedResourceError. -/
def closeCaught : Exc → Bool
  | .brokenResource => true
  | .attributeError => true
  | .busyResource => true
  | .closedResource => true
  | _ => false

/-- Server._close, given the result of stream.send_eof (none = success,
some e = e was raised): the enumerated transport errors are swallowed
and aclose still runs; any other exception from send_eof propagates
before aclose is reached.  aclose marks the stream closed. -/
def closeStep (res : Option Exc) (c : ConnState) : ConnState × List Action × Option Exc :=
  match res with
  | none => ({ c with streamClosed := true }, [Action.sendEofCall, Action.aclose], none)
  | some e =>
    if closeCaught e then
      ({ c with streamClosed := true }, [Action.sendEofCall, Action.aclose], none)
    else
      (c, [Action.sendEofCall], some e)

/-- The outcomes stream.send_eof can have on an open stream: success, or
one of the exceptions trio raises from send_eof (the peer reset the
connection, the stream is busy or closed), or AttributeError when the
stream is an SSL stream without a send_eof method. -/
inductive EofRes
  | ok
  | brokenResource
  | attributeError
  | busyResource
  | closedResource
deriving DecidableEq, Repr

/-- The exception (if any) produced by a given send_eof outcome. -/
def EofRes.toExc : EofRes → Option Exc
  | .ok => none
  | .brokenResource => some .brokenResource
  | .attributeError => some .attributeError
  | .busyResource => some .busyResource
  | .closedResource => some .closedResource

/-- One outcome of stream.receive_some(MAX_RECV): data (possibly empty,
signalling the peer half-closed), or one of the exceptions the read loop
handles: TooSlowError, ClosedResourceError, BrokenResourceError. -/
inductive ReadOutcome
  | ok (data : Bytes)
  | tooSlow
  | closedResource
  | brokenResource
deriving DecidableEq, Repr

/-- Connection state together with the oracles for the external world:
the successive values protocol.idle will take, and the successive
outcomes of send_eof on the open stream. -/
structure IoState where
  conn : ConnState
  idles : List Bool
  eofs : List EofRes
deriving DecidableEq, Repr

/-- Read the next value of protocol.idle (defaulting to false when the
oracle is exhausted). -/
def popIdle (s : IoState) : Bool × IoState :=
  match s.idles with
  | [] => (false, s)
  | b :: rest => (b, { s with idles := rest })

/-- The result of stream.send_eof: drawn from the oracle while the
stream is open; on a stream that was already closed by this server trio
raises ClosedResourceError. -/
def popEof (s : IoState) : Option Exc × IoState :=
  if s.conn.streamClosed then (some .closedResource, s)
  else
    match s.eofs with
    | [] => (none, s)
    | e :: rest => (e.toExc, { s with eofs := rest })

/-- Server._update_keep_alive_timeout acting on the full I/O state,
reading protocol.idle from the oracle. -/
def updateKeepAlive (s : IoState) : IoState × List Action :=
  let step := popIdle s
  let step2 := updateKeepAliveTimeout step.1 step.2.conn
  ({ step.2 with conn := step2.1 }, step2.2)

/-- Server._close acting on the full I/O state.  With the send_eof
outcomes enumerated by EofRes the except clause always applies, so the
returned exception is provably none (closeLoop_spec below). -/
def closeLoop (s : IoState) : IoState × List Action × Option Exc :=
  let step := popEof s
  let step2 := closeStep step.1 step.2.conn
  ({ step.2 with conn := step2.1 }, step2.2.1, step2.2.2)

/-- Server._read_data: loop reading up to MAX_RECV bytes.  A slow read
feeds Closed to the protocol and tears the connection down, then the
loop continues; receive_some on the closed stream then raises
ClosedResourceError, which (like BrokenResourceError) breaks the loop.
A successful read is fed to the protocol as RawData, the keep-alive
timer is refreshed, and an empty read breaks the loop after delivery.
Returns the unconsumed read outcomes, the final state and the trace. -/
def readData : List ReadOutcome → IoState → List ReadOutcome × IoState × List Action
  | reads, s =>
    if s.conn.streamClosed then
      -- receive_some raises ClosedResourceError: break
      (reads, s, [Action.receiveSome])
    else
      match reads with
      | [] => (([] : List ReadOutcome), s, ([] : List Action))
      | ReadOutcome.ok data :: rest =>
        let stepKA := updateKeepAlive s
        if data = [] then
          (rest, stepKA.1, Action.receiveSome :: Action.handle (.rawData data) :: stepKA.2)
        else
          let stepRec := readData rest stepKA.1
          (stepRec.1, stepRec.2.1,
           Action.receiveSome :: Action.handle (.rawData data) :: stepKA.2 ++ stepRec.2.2)
      | ReadOutcome.tooSlow :: rest =>
        let stepC := closeLoop s
        let stepRec := readData rest stepC.1
        (stepRec.1, stepRec.2.1,
         Action.receiveSome :: Action.handle .closed :: stepC.2.1 ++ stepRec.2.2)
      | ReadOutcome.closedResource :: rest => (rest, s, [Action.receiveSome])
      | ReadOutcome.brokenResource :: rest => (rest, s, [Action.receiveSome])

/-- Outcome of the TLS handshake phase at the top of Server.run:
either the handshake succeeded and selected_alpn_protocol returned the
given token, or it raised BrokenResourceError, or it exceeded
ssl_handshake_timeout (TooSlowError from trio.fail_after), or the stream
has no do_handshake at all (AttributeError: a plain TCP stream). -/
inductive HandshakeOutcome
  | sslOk (alpn : Option String)
  | sslBroken
  | sslTooSlow
  | notSSL
deriving DecidableEq, Repr

/-- Environment of one Server.run execution: the handshake outcome, the
non-cancellation exceptions surfacing at the nursery boundary (from the
nursery body or from spawned tasks, after trio has absorbed the
Cancelled exceptions belonging to the scope), and the oracles for reads,
protocol.idle and send_eof. -/
structure RunEnv where
  handshake : HandshakeOutcome
  scopeExcs : List Exc
  reads : List ReadOutcome
  idles : List Bool
  eofs : List EofRes

/-- Result of Server.run: the trace of actions, the exception escaping
run (none = clean return), and, when the connection phase was reached,
the ssl flag and negotiated protocol token passed to ProtocolWrapper. -/
structure RunResult where
  trace : List Action
  raised : Option Exc
  ssl : Option Bool
  alpn : Option (Option String)

/-- The fresh per-connection state at the start of the connection phase:
stream open, no keep-alive handle, no timer scopes started yet. -/
def bodyInit (env : RunEnv) : IoState :=
  ⟨⟨false, none, []⟩, env.idles, env.eofs⟩

/-- The connection phase of Server.run once the handshake phase decided
ssl and alpn: construct the protocol, initiate it, arm the keep-alive
timer, run the read loop; at the nursery boundary trio aggregates the
surviving exceptions with MultiError collapse, the code passes on
trio.MultiError only, and the finally clause always runs _close. -/
def runBody (env : RunEnv) (ssl : Bool) (alpn : Option String) : RunResult :=
  let stepKA := updateKeepAlive (bodyInit env)
  let stepR := readData env.reads stepKA.1
  let nexc := collapse env.scopeExcs
  let caught :=
    match nexc with
    | none => true
    | some (.multiError _) => true      -- except trio.MultiError: pass
    | some _ => false
  let stepC := closeLoop stepR.2.1      -- finally: await self._close()
  let raised :=
    match stepC.2.2 with
    | some e => some e                  -- an exception in the finally would replace
    | none => if caught then none else nexc
  ⟨Action.doHandshake :: Action.initiate :: stepKA.2 ++ stepR.2.2 ++ stepC.2.1,
   raised, some ssl, some alpn⟩

/-- Server.run.  A handshake failure or timeout returns at once, before
the protocol engine is constructed, the nursery opened or any teardown
attempted; a plain stream (AttributeError) proceeds with the default
token http/1.1 and ssl false. -/
def serverRun (env : RunEnv) : RunResult :=
  match env.handshake with
  | .sslBroken => ⟨[Action.doHandshake], none, none, none⟩
  | .sslTooSlow => ⟨[Action.doHandshake], none, none, none⟩
  | .sslOk alpn => runBody env true alpn
  | .notSSL => runBody env false (some "http/1.1")

/-- Outcome of stream.send_all on an open stream: success, or
BrokenResourceError (peer reset), or ClosedResourceError (the stream was
closed locally, for example by the keep-alive timer firing). -/
inductive WriteRes
  | ok
  | brokenResource
  | closedResource
deriving DecidableEq, Repr

/-- The exception (if any) produced by a given send_all outcome. -/
def WriteRes.toExc : WriteRes → Option Exc
  | .ok => none
  | .brokenResource => some .brokenResource
  | .closedResource => some .closedResource

/-- Server.protocol_send: a RawData event is written under the send
lock, with BrokenResourceError swallowed so ASGI apps can finish, while
any other exception leaves through the async-with (releasing the lock)
and skips the keep-alive refresh; a Closed event performs _close; after
either event the keep-alive timer is re-evaluated. -/
def protocolSend (ev : OutEvent) (wr : WriteRes) (s : IoState) :
    IoState × List Action × Option Exc :=
  match ev with
  | .rawData d =>
    let res := if s.conn.streamClosed then some Exc.closedResource else wr.toExc
    match res with
    | none =>
      let stepKA := updateKeepAlive s
      (stepKA.1, [Action.lockAcquire, Action.sendAll d, Action.lockRelease] ++ stepKA.2, none)
    | some .brokenResource =>
      -- pass: allow ASGI Apps to finish
      let stepKA := updateKeepAlive s
      (stepKA.1, [Action.lockAcquire, Action.sendAll d, Action.lockRelease] ++ stepKA.2, none)
    | some e =>
      (s, [Action.lockAcquire, Action.sendAll d, Action.lockRelease], some e)
  | .closed =>
    let stepC := closeLoop s
    match stepC.2.2 with
    | some e => (stepC.1, stepC.2.1, some e)
    | none =>
      let stepKA := updateKeepAlive stepC.1
      (stepKA.1, stepC.2.1 ++ stepKA.2, none)

/-- What invoke_asgi(app, scope, receive, send) did: returned normally
or raised the given exception. -/
inductive AppOutcome
  | ok
  | raises (e : Exc)

/-- The _handle coroutine wrapping one request task: trio.Cancelled is
re-raised; a trio.MultiError is filtered for Cancelled and re-raised
when nothing else remains, otherwise logged and answered with the
sentinel send(None); any other Exception is logged and answered with
send(None). -/
def handleTask (outcome : AppOutcome) : List Action × Option Exc :=
  match outcome with
  | .ok => (([] : List Action), none)
  | .raises .cancelled => (([] : List Action), some .cancelled)
  | .raises (.multiError es) =>
    match filterCancelled (.multiError es) with
    | some _ => ([Action.logException, Action.sendNone], none)
    | none => (([] : List Action), some (.multiError es))
  | .raises _ => ([Action.logException, Action.sendNone], none)

/-- Control position of the _call_later task: sleeping with r more ticks
until trio.sleep(timeout) completes, running the close callback, done
(callback completed), or aborted by a delivered cancellation. -/
inductive TimerPhase
  | sleeping (r : Nat)
  | running
  | done
  | aborted
deriving DecidableEq, Repr

/-- State of one _call_later task: its phase, whether cancel_scope.shield
has been set, whether cancel_scope.cancel() has been requested
(ownPending) or a cancellation of an enclosing scope is pending
(outerPending), and whether the close callback ran to completion. -/
structure TimerTask where
  phase : TimerPhase
  shield : Bool
  ownPending : Bool
  outerPending : Bool
  callbackRan : Bool
deriving DecidableEq, Repr

/-- One scheduler tick of the _call_later task.  ownNow marks
cancel_scope.cancel() being invoked during this tick, outerNow a
cancellation of an enclosing scope.  At each checkpoint a pending own
cancellation is delivered unconditionally, while an outer cancellation
is delivered only while the scope is unshielded; when the sleep
completes the scope sets shield := true synchronously, with no
checkpoint in between, before awaiting the close callback. -/
def timerStep (ownNow outerNow : Bool) (t : TimerTask) : TimerTask :=
  let t1 : TimerTask :=
    { t with ownPending := t.ownPending || ownNow,
             outerPending := t.outerPending || outerNow }
  let deliver := t1.ownPending || (t1.outerPending && !t1.shield)
  match t.phase with
  | .sleeping (r + 1) =>
    if deliver then { t1 with phase := .aborted } else { t1 with phase := .sleeping r }
  | .sleeping 0 =>
    if deliver then { t1 with phase := .aborted }
    else { t1 with phase := .running, shield := true }
  | .running =>
    if deliver then { t1 with phase := .aborted }
    else { t1 with phase := .done, callbackRan := true }
  | .done => t
  | .aborted => t

/-- Run the _call_later task for the given number of ticks starting at
tick number k, with cancel_scope.cancel() invoked at tick own (if any)
and the enclosing scope cancelled at tick outer (if any). -/
def runTimer (own outer : Option Nat) : Nat → Nat → TimerTask → TimerTask
  | 0, _, t => t
  | fuel + 1, k, t =>
    runTimer own outer fuel (k + 1) (timerStep (own == some k) (outer == some k) t)

/-- _call_later(timeout, callback): sleep for timeout ticks inside the
cancel scope handed to the starter, then shield the scope and run the
callback.  own is the tick at which the keep-alive rearm cancels this
scope, outer the tick at which the enclosing connection scope is
cancelled. -/
def callLater (timeout : Nat) (own outer : Option Nat) : TimerTask :=
  runTimer own outer (timeout + 2) 0 ⟨.sleeping timeout, false, false, false, false⟩

/-! ### Observations on traces -/

/-- Actions a keep-alive refresh may perform: reading protocol.idle,
cancelling the old timer scope, starting a new one.  None of them touch
the transport or the protocol engine. -/
def isKaAction : Action → Bool
  | .kaRefresh _ => true
  | .cancelTimer _ => true
  | .startTimer _ => true
  | _ => false

/-- Number of _close executions recorded in a trace, one send_eof
attempt per execution. -/
def countCloses (tr : List Action) : Nat :=
  tr.countP fun a => decide (a = Action.sendEofCall)

/-- Number of receive_some attempts recorded in a trace. -/
def countReceives (tr : List Action) : Nat :=
  tr.countP fun a => decide (a = Action.receiveSome)

/-- Number of send_all attempts recorded in a trace. -/
def countSendAlls (tr : List Action) : Nat :=
  tr.countP fun a => match a with | .sendAll _ => true | _ => false

/-- Number of protocol.handle calls recorded in a trace. -/
def countHandles (tr : List Action) : Nat :=
  tr.countP fun a => match a with | .handle _ => true | _ => false

/-- The events delivered to protocol.handle, in order. -/
def handleEvents (tr : List Action) : List InEvent :=
  tr.filterMap fun a => match a with | .handle e => some e | _ => none

/-- Whether a trace contains a protocol.handle(Closed()) call. -/
def containsClosed (tr : List Action) : Bool :=
  tr.any fun a => decide (a = Action.handle InEvent.closed)

/-- The part of the trace after the first protocol.handle(Closed()) call
(empty when there is none). -/
def afterClosed : List Action → List Action
  | [] => []
  | Action.handle InEvent.closed :: rest => rest
  | _ :: rest => afterClosed rest

/-- Keep-alive bookkeeping invariant: every timer scope still pending is
the one currently tracked by _keep_alive_timeout_handle. -/
def timerInv (c : ConnState) : Prop :=
  ∀ i, c.timers[i]? = some TimerStatus.pending → c.kaHandle = some i

/-- Number of pending (armed, not yet fired or cancelled) timer scopes. -/
def pendingCount (ts : List TimerStatus) : Nat :=
  ts.countP fun st => decide (st = TimerStatus.pending)

/-- N successive keep-alive rearms with a fixed idle answer. -/
def iterUpdate (idle : Bool) : Nat → ConnState → ConnState
  | 0, c => c
  | n + 1, c => iterUpdate idle n (updateKeepAliveTimeout idle c).1

/-- Server.run reaches the connection phase (the handshake neither
failed nor timed out). -/
def reachesBody (env : RunEnv) : Prop :=
  env.handshake = HandshakeOutcome.notSSL ∨ ∃ a, env.handshake = HandshakeOutcome.sslOk a

/-! ### Helper lemmas -/

theorem updateKA_trace_kaOnly (s : IoState) :
    ((updateKeepAlive s).2).all isKaAction = true := by
  rcases s with ⟨⟨sc, kh, tm⟩, idl, efs⟩
  cases idl with
  | nil =>
    cases kh <;> simp [updateKeepAlive, popIdle, updateKeepAliveTimeout, isKaAction]
  | cons b rest =>
    cases kh <;> cases b <;>
      simp [updateKeepAlive, popIdle, updateKeepAliveTimeout, isKaAction]

theorem updateKA_streamClosed (s : IoState) :
    (updateKeepAlive s).1.conn.streamClosed = s.conn.streamClosed := by
  rcases s with ⟨⟨sc, kh, tm⟩, idl, efs⟩
  cases idl with
  | nil =>
    cases kh <;> simp [updateKeepAlive, popIdle, updateKeepAliveTimeout]
  | cons b rest =>
    cases kh <;> cases b <;>
      simp [updateKeepAlive, popIdle, updateKeepAliveTimeout]

theorem closeLoop_trace (s : IoState) :
    (closeLoop s).2.1 = [Action.sendEofCall, Action.aclose] := by
  rcases s with ⟨⟨sc, kh, tm⟩, idl, efs⟩
  cases sc
  · cases efs with
    | nil => rfl
    | cons e rest => cases e <;> rfl
  · rfl

theorem closeLoop_exc (s : IoState) : (closeLoop s).2.2 = none := by
  rcases s with ⟨⟨sc, kh, tm⟩, idl, efs⟩
  cases sc
  · cases efs with
    | nil => rfl
    | cons e rest => cases e <;> rfl
  · rfl

theorem closeLoop_streamClosed (s : IoState) :
    (closeLoop s).1.conn.streamClosed = true := by
  rcases s with ⟨⟨sc, kh, tm⟩, idl, efs⟩
  cases sc
  · cases efs with
    | nil => rfl
    | cons e rest => cases e <;> rfl
  · rfl

theorem all_ka_count_zero {tr : List Action} (h : tr.all isKaAction = true)
    {p : Action → Bool} (hp : ∀ a, isKaAction a = true → p a = false) :
    tr.countP p = 0 := by
  rw [List.countP_eq_zero]
  intro a ha
  simp [hp a (List.all_eq_true.mp h a ha)]

theorem ka_countCloses (s : IoState) : countCloses (updateKeepAlive s).2 = 0 :=
  all_ka_count_zero (updateKA_trace_kaOnly s)
    (fun a ha => by cases a <;> simp_all [isKaAction])

theorem ka_countReceives (s : IoState) : countReceives (updateKeepAlive s).2 = 0 :=
  all_ka_count_zero (updateKA_trace_kaOnly s)
    (fun a ha => by cases a <;> simp_all [isKaAction])

theorem ka_containsClosed (s : IoState) : containsClosed (updateKeepAlive s).2 = false := by
  rw [containsClosed, List.any_eq_false]
  intro a ha
  have hk := List.all_eq_true.mp (updateKA_trace_kaOnly s) a ha
  cases a <;> simp_all [isKaAction]

theorem ka_handleEvents (s : IoState) : handleEvents (updateKeepAlive s).2 = [] := by
  rw [handleEvents, List.filterMap_eq_nil_iff]
  intro a ha
  have hk := List.all_eq_true.mp (updateKA_trace_kaOnly s) a ha
  cases a <;> simp_all [isKaAction]

theorem countCloses_nil : countCloses [] = 0 := rfl

theorem countCloses_cons (a : Action) (tr : List Action) :
    countCloses (a :: tr) = countCloses tr + (if a = Action.sendEofCall then 1 else 0) := by
  simp [countCloses, List.countP_cons]

theorem countCloses_append (t1 t2 : List Action) :
    countCloses (t1 ++ t2) = countCloses t1 + countCloses t2 := by
  simp [countCloses, List.countP_append]

theorem countReceives_cons (a : Action) (tr : List Action) :
    countReceives (a :: tr) = countReceives tr + (if a = Action.receiveSome then 1 else 0) := by
  simp [countReceives, List.countP_cons]

theorem countReceives_append (t1 t2 : List Action) :
    countReceives (t1 ++ t2) = countReceives t1 + countReceives t2 := by
  simp [countReceives, List.countP_append]

theorem countSendAlls_append (t1 t2 : List Action) :
    countSendAlls (t1 ++ t2) = countSendAlls t1 + countSendAlls t2 := by
  simp [countSendAlls, List.countP_append]

theorem countHandles_append (t1 t2 : List Action) :
    countHandles (t1 ++ t2) = countHandles t1 + countHandles t2 := by
  simp [countHandles, List.countP_append]

theorem afterClosed_cons (x : Action) (rest : List Action) :
    afterClosed (x :: rest) =
      if x = Action.handle InEvent.closed then rest else afterClosed rest := by
  cases x with
  | handle e => cases e <;> simp [afterClosed]
  | doHandshake => simp [afterClosed]
  | initiate => simp [afterClosed]
  | receiveSome => simp [afterClosed]
  | kaRefresh b => simp [afterClosed]
  | cancelTimer h => simp [afterClosed]
  | startTimer h => simp [afterClosed]
  | lockAcquire => simp [afterClosed]
  | sendAll d => simp [afterClosed]
  | lockRelease => simp [afterClosed]
  | sendEofCall => simp [afterClosed]
  | aclose => simp [afterClosed]
  | logException => simp [afterClosed]
  | sendNone => simp [afterClosed]

theorem containsClosed_cons (x : Action) (rest : List Action) :
    containsClosed (x :: rest) =
      ((x = Action.handle InEvent.closed : Bool) || containsClosed rest) := by
  simp [containsClosed, List.any_cons]

theorem containsClosed_append (t1 t2 : List Action) :
    containsClosed (t1 ++ t2) = (containsClosed t1 || containsClosed t2) := by
  simp [containsClosed, List.any_append]

theorem afterClosed_append_not {a : List Action} (b : List Action)
    (h : containsClosed a = false) : afterClosed (a ++ b) = afterClosed b := by
  induction a with
  | nil => rfl
  | cons x rest ih =>
    rw [containsClosed_cons] at h
    rcases Bool.or_eq_false_iff.mp h with ⟨h1, h2⟩
    rw [List.cons_append, afterClosed_cons, if_neg (by simpa using h1)]
    exact ih h2

theorem afterClosed_append_contains {a : List Action} (b : List Action)
    (h : containsClosed a = true) : afterClosed (a ++ b) = afterClosed a ++ b := by
  induction a with
  | nil => simp [containsClosed] at h
  | cons x rest ih =>
    rw [containsClosed_cons] at h
    by_cases hx : x = Action.handle InEvent.closed
    · rw [List.cons_append, afterClosed_cons, afterClosed_cons, if_pos hx, if_pos hx]
    · have h2 : containsClosed rest = true := by
        rcases Bool.or_eq_true_iff.mp h with h1 | h1
        · exact absurd (by simpa using h1) hx
        · exact h1
      rw [List.cons_append, afterClosed_cons, afterClosed_cons, if_neg hx, if_neg hx]
      exact ih h2

theorem afterClosed_of_not_contains {a : List Action}
    (h : containsClosed a = false) : afterClosed a = [] := by
  induction a with
  | nil => rfl
  | cons x rest ih =>
    rw [containsClosed_cons] at h
    rcases Bool.or_eq_false_iff.mp h with ⟨h1, h2⟩
    rw [afterClosed_cons, if_neg (by simpa using h1)]
    exact ih h2

theorem readData_countCloses (reads : List ReadOutcome) (s : IoState)
    (h : ReadOutcome.tooSlow ∉ reads) :
    countCloses (readData reads s).2.2 = 0 := by
  induction reads generalizing s with
  | nil =>
    by_cases hc : s.conn.streamClosed <;>
      simp [readData, hc, countCloses, List.countP_cons]
  | cons r rest ih =>
    have hrest : ReadOutcome.tooSlow ∉ rest := fun hm => h (List.mem_cons_of_mem _ hm)
    by_cases hc : s.conn.streamClosed
    · cases r <;> simp [readData, hc, countCloses, List.countP_cons]
    · cases r with
      | ok data =>
        by_cases hd : data = []
        · simp [readData, hc, hd, countCloses_cons, countCloses_nil, ka_countCloses]
        · simp only [readData, hc, if_false, hd, Bool.false_eq_true, ite_false]
          simp [countCloses_cons, countCloses_append, ka_countCloses, ih _ hrest]
      | tooSlow => exact absurd (List.mem_cons_self ReadOutcome.tooSlow rest) h
      | closedResource => simp [readData, hc, countCloses, List.countP_cons]
      | brokenResource => simp [readData, hc, countCloses, List.countP_cons]

theorem readData_closed (reads : List ReadOutcome) (s : IoState)
    (h : s.conn.streamClosed = true) :
    readData reads s = (reads, s, [Action.receiveSome]) := by
  cases reads with
  | nil => simp [readData, h]
  | cons r rest => cases r <;> simp [readData, h]

theorem readData_ok_nilData (rest : List ReadOutcome) (s : IoState)
    (hc : s.conn.streamClosed = false) :
    readData (ReadOutcome.ok [] :: rest) s =
      (rest, (updateKeepAlive s).1,
        Action.receiveSome :: Action.handle (InEvent.rawData []) :: (updateKeepAlive s).2) := by
  simp [readData, hc]

theorem readData_ok_ne (data : Bytes) (rest : List ReadOutcome) (s : IoState)
    (hc : s.conn.streamClosed = false) (hd : data ≠ []) :
    readData (ReadOutcome.ok data :: rest) s =
      ((readData rest (updateKeepAlive s).1).1,
       (readData rest (updateKeepAlive s).1).2.1,
       (Action.receiveSome :: Action.handle (InEvent.rawData data) :: (updateKeepAlive s).2)
         ++ (readData rest (updateKeepAlive s).1).2.2) := by
  simp [readData, hc, hd]

theorem readData_tooSlow_eq (rest : List ReadOutcome) (s : IoState)
    (hc : s.conn.streamClosed = false) :
    readData (ReadOutcome.tooSlow :: rest) s =
      ((readData rest (closeLoop s).1).1,
       (readData rest (closeLoop s).1).2.1,
       (Action.receiveSome :: Action.handle InEvent.closed :: (closeLoop s).2.1)
         ++ (readData rest (closeLoop s).1).2.2) := by
  simp [readData, hc]

theorem readData_afterClosed (reads : List ReadOutcome) (s : IoState)
    (hc : s.conn.streamClosed = false) :
    containsClosed (readData reads s).2.2 = false ∨
      afterClosed (readData reads s).2.2 =
        [Action.sendEofCall, Action.aclose, Action.receiveSome] := by
  induction reads generalizing s with
  | nil => left; simp [readData, hc, containsClosed]
  | cons r rest ih =>
    cases r with
    | ok data =>
      by_cases hd : data = []
      · left
        simp [readData, hc, hd, containsClosed_cons, ka_containsClosed]
      · have hclosed : (updateKeepAlive s).1.conn.streamClosed = false := by
          rw [updateKA_streamClosed]; exact hc
        have hpre : containsClosed
            (Action.receiveSome :: Action.handle (InEvent.rawData data) ::
              (updateKeepAlive s).2) = false := by
          simp [containsClosed_cons, ka_containsClosed]
        rcases ih (updateKeepAlive s).1 hclosed with hnone | hsome
        · left
          simp only [readData, hc, Bool.false_eq_true, if_false, hd, ite_false]
          rw [containsClosed_append, hpre, hnone]
          rfl
        · right
          simp only [readData, hc, Bool.false_eq_true, if_false, hd, ite_false]
          rw [afterClosed_append_not _ hpre]
          exact hsome
    | tooSlow =>
      right
      have hrec := readData_closed rest (closeLoop s).1 (closeLoop_streamClosed s)
      have hpre : containsClosed
          (Action.receiveSome :: Action.handle InEvent.closed :: (closeLoop s).2.1) = true := by
        simp [containsClosed_cons]
      rw [readData_tooSlow_eq rest s hc]
      dsimp only
      rw [afterClosed_append_contains _ hpre, afterClosed_cons, if_neg (by simp),
        afterClosed_cons, if_pos rfl, closeLoop_trace, hrec]
      rfl
    | closedResource => left; simp [readData, hc, containsClosed]
    | brokenResource => left; simp [readData, hc, containsClosed]

theorem readData_events (datas : List Bytes) (extra : List ReadOutcome) (s : IoState)
    (hc : s.conn.streamClosed = false) (hne : ∀ d ∈ datas, d ≠ []) :
    handleEvents
        (readData (datas.map ReadOutcome.ok ++ ReadOutcome.ok [] :: extra) s).2.2 =
      datas.map InEvent.rawData ++ [InEvent.rawData []] ∧
      (readData (datas.map ReadOutcome.ok ++ ReadOutcome.ok [] :: extra) s).1 = extra := by
  induction datas generalizing s with
  | nil =>
    have hka := ka_handleEvents s
    rw [List.map_nil, List.nil_append, readData_ok_nilData extra s hc]
    refine ⟨?_, rfl⟩
    simp only [handleEvents, List.filterMap_cons] at hka ⊢
    simp [hka]
  | cons d ds ih =>
    have hd : d ≠ [] := hne d (List.mem_cons_self d ds)
    have hclosed : (updateKeepAlive s).1.conn.streamClosed = false := by
      rw [updateKA_streamClosed]; exact hc
    have hrest : ∀ x ∈ ds, x ≠ [] := fun x hx => hne x (List.mem_cons_of_mem d hx)
    have hrec := ih (updateKeepAlive s).1 hclosed hrest
    have hka := ka_handleEvents s
    constructor
    · simp only [List.map_cons, List.cons_append, readData, hc, Bool.false_eq_true,
        if_false, hd, ite_false]
      simp only [handleEvents, List.filterMap_append, List.filterMap_cons] at hka hrec ⊢
      simp [hka, hrec.1]
    · simp only [List.map_cons, List.cons_append, readData, hc, Bool.false_eq_true,
        if_false, hd, ite_false]
      exact hrec.2

theorem no_pending_of_inv_none {c : ConnState} (hinv : timerInv c)
    (h : c.kaHandle = none) : ∀ st ∈ c.timers, st ≠ TimerStatus.pending := by
  intro st hmem hpend
  subst hpend
  rcases List.mem_iff_getElem?.mp hmem with ⟨i, hi⟩
  have hka := hinv i hi
  rw [h] at hka
  cases hka

theorem no_pending_cancel {c : ConnState} {h : Nat} (hinv : timerInv c)
    (hh : c.kaHandle = some h) :
    ∀ st ∈ cancelScope c.timers h, st ≠ TimerStatus.pending := by
  intro st hmem hpend
  subst hpend
  cases hget : c.timers[h]? with
  | none =>
    simp only [cancelScope, hget] at hmem
    rcases List.mem_iff_getElem?.mp hmem with ⟨i, hi⟩
    have hka := hinv i hi
    rw [hh] at hka
    have : i = h := (Option.some.inj hka).symm
    subst this
    rw [hget] at hi
    cases hi
  | some st0 =>
    cases st0 with
    | pending =>
      simp only [cancelScope, hget] at hmem
      rcases List.mem_iff_getElem?.mp hmem with ⟨i, hi⟩
      rw [List.getElem?_set] at hi
      by_cases hih : h = i
      · subst hih
        have hlen : h < c.timers.length := by
          by_contra hlt
          rw [List.getElem?_eq_none (Nat.le_of_not_lt hlt)] at hget
          cases hget
        rw [if_pos rfl, if_pos hlen] at hi
        cases hi
      · rw [if_neg hih] at hi
        have hka := hinv i hi
        rw [hh] at hka
        have : h = i := Option.some.inj hka
        exact hih this
    | fired =>
      simp only [cancelScope, hget] at hmem
      rcases List.mem_iff_getElem?.mp hmem with ⟨i, hi⟩
      have hka := hinv i hi
      rw [hh] at hka
      have : i = h := (Option.some.inj hka).symm
      subst this
      rw [hget] at hi
      cases hi
    | cancelled =>
      simp only [cancelScope, hget] at hmem
      rcases List.mem_iff_getElem?.mp hmem with ⟨i, hi⟩
      have hka := hinv i hi
      rw [hh] at hka
      have : i = h := (Option.some.inj hka).symm
      subst this
      rw [hget] at hi
      cases hi

theorem pendingCount_eq_zero {ts : List TimerStatus}
    (h : ∀ st ∈ ts, st ≠ TimerStatus.pending) : pendingCount ts = 0 := by
  rw [pendingCount, List.countP_eq_zero]
  intro a ha
  simpa using h a ha

theorem arm_fresh {ts : List TimerStatus}
    (hts : ∀ st ∈ ts, st ≠ TimerStatus.pending) :
    (∀ i, (ts ++ [TimerStatus.pending])[i]? = some TimerStatus.pending → i = ts.length) ∧
      pendingCount (ts ++ [TimerStatus.pending]) = 1 := by
  constructor
  · intro i hi
    rcases Nat.lt_trichotomy i ts.length with hlt | heq | hgt
    · rw [List.getElem?_append_left hlt] at hi
      exact absurd rfl (hts _ (List.getElem?_mem hi))
    · exact heq
    · rw [List.getElem?_eq_none (by simp; omega)] at hi
      cases hi
  · rw [pendingCount, List.countP_append]
    have h0 : pendingCount ts = 0 := pendingCount_eq_zero hts
    rw [pendingCount] at h0
    rw [h0]
    simp

theorem updateKA_core (idle : Bool) (c : ConnState) (hinv : timerInv c) :
    timerInv (updateKeepAliveTimeout idle c).1 ∧
      pendingCount (updateKeepAliveTimeout idle c).1.timers = (if idle then 1 else 0) := by
  cases hh : c.kaHandle with
  | none =>
    have hnp := no_pending_of_inv_none hinv hh
    cases idle with
    | false =>
      refine ⟨?_, ?_⟩
      · intro i hi
        simp only [updateKeepAliveTimeout, hh] at hi
        exact absurd rfl (hnp _ (List.getElem?_mem hi))
      · simp only [updateKeepAliveTimeout, hh]
        simpa using pendingCount_eq_zero hnp
    | true =>
      rcases arm_fresh hnp with ⟨hidx, hcount⟩
      refine ⟨?_, ?_⟩
      · intro i hi
        simp only [updateKeepAliveTimeout, hh] at hi ⊢
        exact congrArg some (hidx i hi).symm
      · simp only [updateKeepAliveTimeout, hh]
        simpa using hcount
  | some h =>
    have hnp := no_pending_cancel hinv hh
    cases idle with
    | false =>
      refine ⟨?_, ?_⟩
      · intro i hi
        simp only [updateKeepAliveTimeout, hh] at hi
        exact absurd rfl (hnp _ (List.getElem?_mem hi))
      · simp only [updateKeepAliveTimeout, hh]
        simpa using pendingCount_eq_zero hnp
    | true =>
      rcases arm_fresh hnp with ⟨hidx, hcount⟩
      refine ⟨?_, ?_⟩
      · intro i hi
        simp only [updateKeepAliveTimeout, hh] at hi ⊢
        exact congrArg some (hidx i hi).symm
      · simp only [updateKeepAliveTimeout, hh]
        simpa using hcount

theorem iterUpdate_pending (n : Nat) (c : ConnState) (hinv : timerInv c) :
    timerInv (iterUpdate true (n + 1) c) ∧
      pendingCount (iterUpdate true (n + 1) c).timers = 1 := by
  induction n generalizing c with
  | zero =>
    have := updateKA_core true c hinv
    simpa [iterUpdate] using this
  | succ m ih =>
    have hstep := updateKA_core true c hinv
    have := ih (updateKeepAliveTimeout true c).1 hstep.1
    simpa [iterUpdate] using this

theorem runTimer_finished (own outer : Option Nat) (fuel k : Nat) (t : TimerTask)
    (h : t.phase = TimerPhase.done ∨ t.phase = TimerPhase.aborted) :
    runTimer own outer fuel k t = t := by
  induction fuel generalizing k with
  | zero => rfl
  | succ f ih =>
    have hstep : timerStep (own == some k) (outer == some k) t = t := by
      rcases h with h | h <;> simp [timerStep, h]
    rw [runTimer, hstep]
    exact ih (k + 1)

theorem sleep_cancelled (r : Nat) (outer : Option Nat) (c : Nat) :
    ∀ k fuel : Nat, ∀ outp : Bool, k ≤ c → c ≤ k + r → r + 1 ≤ fuel →
    (runTimer (some c) outer fuel k
      ⟨TimerPhase.sleeping r, false, false, outp, false⟩).callbackRan = false := by
  induction r with
  | zero =>
    intro k fuel outp hc hcr hfuel
    have hck : c = k := Nat.le_antisymm (by omega) hc
    obtain ⟨f, rfl⟩ : ∃ f, fuel = f + 1 := ⟨fuel - 1, by omega⟩
    rw [runTimer]
    have hown : ((some c == some k) : Bool) = true := by simp [hck]
    have hstep : timerStep (some c == some k) (outer == some k)
        ⟨TimerPhase.sleeping 0, false, false, outp, false⟩ =
        ⟨TimerPhase.aborted, false, true, outp || (outer == some k), false⟩ := by
      rw [hown]; simp [timerStep]
    rw [hstep, runTimer_finished _ _ _ _ _ (Or.inr rfl)]
  | succ m ih =>
    intro k fuel outp hc hcr hfuel
    obtain ⟨f, rfl⟩ : ∃ f, fuel = f + 1 := ⟨fuel - 1, by omega⟩
    rw [runTimer]
    by_cases hck : c = k
    · have hown : ((some c == some k) : Bool) = true := by simp [hck]
      have hstep : timerStep (some c == some k) (outer == some k)
          ⟨TimerPhase.sleeping (m + 1), false, false, outp, false⟩ =
          ⟨TimerPhase.aborted, false, true, outp || (outer == some k), false⟩ := by
        rw [hown]; simp [timerStep]
      rw [hstep, runTimer_finished _ _ _ _ _ (Or.inr rfl)]
    · have hown : ((some c == some k) : Bool) = false := by simp [hck]
      cases hdel : (outp || (outer == some k)) with
      | true =>
        have hstep : timerStep (some c == some k) (outer == some k)
            ⟨TimerPhase.sleeping (m + 1), false, false, outp, false⟩ =
            ⟨TimerPhase.aborted, false, false, outp || (outer == some k), false⟩ := by
          rw [hown]; simp [timerStep, hdel]
        rw [hstep, runTimer_finished _ _ _ _ _ (Or.inr rfl)]
      | false =>
        have hstep : timerStep (some c == some k) (outer == some k)
            ⟨TimerPhase.sleeping (m + 1), false, false, outp, false⟩ =
            ⟨TimerPhase.sleeping m, false, false, false, false⟩ := by
          rw [hown]; simp [timerStep, hdel]
        rw [hstep]
        exact ih (k + 1) f false (by omega) (by omega) (by omega)

theorem sleep_completes (r : Nat) (outer : Option Nat) :
    ∀ k fuel : Nat, (∀ c, outer = some c → k + r < c) → r + 2 ≤ fuel →
    (runTimer none outer fuel k
      ⟨TimerPhase.sleeping r, false, false, false, false⟩).callbackRan = true ∧
    (runTimer none outer fuel k
      ⟨TimerPhase.sleeping r, false, false, false, false⟩).shield = true := by
  induction r with
  | zero =>
    intro k fuel houter hfuel
    obtain ⟨f, rfl⟩ : ∃ f, fuel = f + 1 := ⟨fuel - 1, by omega⟩
    have houterNow : ((outer == some k) : Bool) = false := by
      cases outer with
      | none => rfl
      | some c =>
        have hgt := houter c rfl
        simp
        omega
    rw [runTimer]
    have hstep : timerStep (none == some k) (outer == some k)
        ⟨TimerPhase.sleeping 0, false, false, false, false⟩ =
        ⟨TimerPhase.running, true, false, false, false⟩ := by
      rw [houterNow]; rfl
    rw [hstep]
    obtain ⟨f2, rfl⟩ : ∃ f2, f = f2 + 1 := ⟨f - 1, by omega⟩
    rw [runTimer]
    have hstep2 : timerStep (none == some (k + 1)) (outer == some (k + 1))
        ⟨TimerPhase.running, true, false, false, false⟩ =
        ⟨TimerPhase.done, true, false, (outer == some (k + 1)), true⟩ := by
      cases houter2 : ((outer == some (k + 1)) : Bool) <;> rfl
    rw [hstep2, runTimer_finished _ _ _ _ _ (Or.inl rfl)]
    exact ⟨rfl, rfl⟩
  | succ m ih =>
    intro k fuel houter hfuel
    obtain ⟨f, rfl⟩ : ∃ f, fuel = f + 1 := ⟨fuel - 1, by omega⟩
    have houterNow : ((outer == some k) : Bool) = false := by
      cases outer with
      | none => rfl
      | some c =>
        have hgt := houter c rfl
        simp
        omega
    rw [runTimer]
    have hstep : timerStep (none == some k) (outer == some k)
        ⟨TimerPhase.sleeping (m + 1), false, false, false, false⟩ =
        ⟨TimerPhase.sleeping m, false, false, false, false⟩ := by
      rw [houterNow]; rfl
    rw [hstep]
    exact ih (k + 1) f (fun c hcr => by have := houter c hcr; omega) (by omega)

theorem runBody_trace (env : RunEnv) (ssl : Bool) (alpn : Option String) :
    (runBody env ssl alpn).trace =
      (Action.doHandshake :: Action.initiate :: (updateKeepAlive (bodyInit env)).2) ++
        ((readData env.reads (updateKeepAlive (bodyInit env)).1).2.2 ++
          (closeLoop (readData env.reads (updateKeepAlive (bodyInit env)).1).2.1).2.1) := by
  rw [runBody]
  dsimp only
  rw [List.append_assoc]

theorem prefix_no_closed (env : RunEnv) :
    containsClosed (Action.doHandshake :: Action.initiate ::
      (updateKeepAlive (bodyInit env)).2) = false := by
  rw [containsClosed_cons, containsClosed_cons, ka_containsClosed]
  simp

theorem prefix_no_closes (env : RunEnv) :
    countCloses (Action.doHandshake :: Action.initiate ::
      (updateKeepAlive (bodyInit env)).2) = 0 := by
  rw [countCloses_cons, countCloses_cons, ka_countCloses]
  simp

theorem bodyInit_KA_open (env : RunEnv) :
    (updateKeepAlive (bodyInit env)).1.conn.streamClosed = false := by
  rw [updateKA_streamClosed]
  rfl

theorem updateKA_trace_shape (s : IoState) :
    ∃ b rest, (updateKeepAlive s).2 = Action.kaRefresh b :: rest := by
  rcases s with ⟨⟨sc, kh, tm⟩, idl, efs⟩
  cases idl with
  | nil => cases kh <;> exact ⟨_, _, rfl⟩
  | cons b rest => cases kh <;> cases b <;> exact ⟨_, _, rfl⟩

theorem runBody_raised (env : RunEnv) (ssl : Bool) (alpn : Option String) :
    (runBody env ssl alpn).raised =
      (match collapse env.scopeExcs with
       | some (Exc.multiError _) => none
       | some e => some e
       | none => none) := by
  have hexc := closeLoop_exc (readData env.reads (updateKeepAlive (bodyInit env)).1).2.1
  rw [runBody]
  dsimp only
  rw [hexc]
  cases hcol : collapse env.scopeExcs with
  | none => rfl
  | some e => cases e <;> rfl

/-! ### Claims -/

/-- C5: from any state satisfying the timer bookkeeping invariant, one
keep-alive rearm preserves the invariant, leaves at most one pending
timer scope, leaves exactly one pending scope iff the protocol reported
idle, records the start of a fresh delayed-close task iff the protocol
reported idle, any positive number of rearms while idle leaves exactly
one pending scope, and cancelling a scope whose timer already fired is a
no-op that does not error. -/
theorem claim_c5_keep_alive_rearm (idle : Bool) (c : ConnState) (n : Nat)
    (hinv : timerInv c) :
    timerInv (updateKeepAliveTimeout idle c).1 ∧
    pendingCount (updateKeepAliveTimeout idle c).1.timers ≤ 1 ∧
    (pendingCount (updateKeepAliveTimeout idle c).1.timers = 1 ↔ idle = true) ∧
    ((∃ h, Action.startTimer h ∈ (updateKeepAliveTimeout idle c).2) ↔ idle = true) ∧
    pendingCount (iterUpdate true (n + 1) c).timers = 1 ∧
    (∀ h, c.timers[h]? = some TimerStatus.fired → cancelScope c.timers h = c.timers) := by
  obtain ⟨hinv2, hcount⟩ := updateKA_core idle c hinv
  refine ⟨hinv2, ?_, ?_, ?_, (iterUpdate_pending n c hinv).2, ?_⟩
  · rw [hcount]; cases idle <;> simp
  · rw [hcount]; cases idle <;> simp
  · cases idle with
    | false =>
      constructor
      · rintro ⟨h, hmem⟩
        cases hh : c.kaHandle <;>
          simp [updateKeepAliveTimeout, hh] at hmem
      · intro h; cases h
    | true =>
      constructor
      · intro _; rfl
      · intro _
        cases hh : c.kaHandle with
        | none => exact ⟨c.timers.length, by simp [updateKeepAliveTimeout, hh]⟩
        | some h0 =>
          exact ⟨(cancelScope c.timers h0).length, by simp [updateKeepAliveTimeout, hh]⟩
  · intro h hfired
    simp [cancelScope, hfired]

/-- C5 witness: three rearms while idle from the fresh connection state
leave exactly one pending timer scope. -/
theorem claim_c5_witness :
    pendingCount (iterUpdate true 3 ⟨false, none, []⟩).timers = 1 :=
  (claim_c5_keep_alive_rearm true ⟨false, none, []⟩ 2
    (fun i hi => by simp at hi)).2.2.2.2.1

/-- C6: if the cancel scope of the delayed-close task receives its own
cancel at or before the tick where the keep-alive sleep completes, the
close callback is never invoked, whatever the enclosing scope does; if
the scope is never cancelled by a rearm and the enclosing connection
scope is cancelled only after the sleep has completed (or never), the
task has shielded itself and the close callback runs to completion. -/
theorem claim_c6_call_later (timeout : Nat) (outer : Option Nat) :
    (∀ c, c ≤ timeout → (callLater timeout (some c) outer).callbackRan = false) ∧
    ((∀ c, outer = some c → timeout < c) →
      (callLater timeout none outer).callbackRan = true ∧
      (callLater timeout none outer).shield = true) := by
  constructor
  · intro c hc
    exact sleep_cancelled timeout outer c 0 (timeout + 2) false (Nat.zero_le c)
      (by omega) (by omega)
  · intro houter
    exact sleep_completes timeout outer 0 (timeout + 2)
      (fun c h => by have := houter c h; omega) (by omega)

/-- C6 witness: with a 2-tick keep-alive sleep, a rearm cancel at tick 1
suppresses the callback; without a rearm cancel, an enclosing-scope
cancellation at tick 5 still lets the shielded callback complete. -/
theorem claim_c6_witness :
    (callLater 2 (some 1) (some 5)).callbackRan = false ∧
    (callLater 2 none (some 5)).callbackRan = true ∧
    (callLater 2 none (some 5)).shield = true := by
  refine ⟨(claim_c6_call_later 2 (some 5)).1 1 (by omega), ?_, ?_⟩
  · exact ((claim_c6_call_later 2 (some 5)).2
      (by intro c h; injection h with h2; omega)).1
  · exact ((claim_c6_call_later 2 (some 5)).2
      (by intro c h; injection h with h2; omega)).2

/-- C8: for the per-request task wrapper around the hosted application:
a failure that is not made purely of cancellations produces exactly one
error log record followed by exactly one sentinel send(None) and is not
re-raised; a trio.Cancelled, or a MultiError whose leaves are all
Cancelled, is re-raised unchanged with no log record and no sentinel. -/
theorem claim_c8_handle_task (e : Exc) :
    (filterCancelled e ≠ none →
      handleTask (.raises e) = ([Action.logException, Action.sendNone], none)) ∧
    (filterCancelled e = none → handleTask (.raises e) = ([], some e)) := by
  cases e with
  | cancelled => exact ⟨fun h => absurd rfl h, fun _ => rfl⟩
  | multiError es =>
    constructor
    · intro h
      cases hf : filterCancelled (.multiError es) with
      | none => exact absurd hf h
      | some f => simp [handleTask, hf]
    · intro h
      simp [handleTask, h]
  | brokenResource => exact ⟨fun _ => rfl, fun h => Option.noConfusion h⟩
  | closedResource => exact ⟨fun _ => rfl, fun h => Option.noConfusion h⟩
  | busyResource => exact ⟨fun _ => rfl, fun h => Option.noConfusion h⟩
  | tooSlow => exact ⟨fun _ => rfl, fun h => Option.noConfusion h⟩
  | attributeError => exact ⟨fun _ => rfl, fun h => Option.noConfusion h⟩
  | otherException => exact ⟨fun _ => rfl, fun h => Option.noConfusion h⟩

/-- C8 witness: an unexpected application exception is logged once and
answered with one sentinel; a MultiError of two Cancelled leaves is
re-raised untouched. -/
theorem claim_c8_witness :
    handleTask (.raises Exc.otherException) =
      ([Action.logException, Action.sendNone], none) ∧
    handleTask (.raises (Exc.multiError [Exc.cancelled, Exc.cancelled])) =
      ([], some (Exc.multiError [Exc.cancelled, Exc.cancelled])) :=
  ⟨(claim_c8_handle_task Exc.otherException).1 (fun h => Option.noConfusion h),
   (claim_c8_handle_task (Exc.multiError [Exc.cancelled, Exc.cancelled])).2 rfl⟩

/-- C9: when the TLS handshake raises BrokenResourceError or exceeds the
handshake deadline, run() returns immediately and cleanly: nothing
escapes, the trace holds only the handshake attempt, so the protocol
engine is never initiated, no event is handled and no teardown
(send_eof or aclose) is attempted, and no ssl flag or protocol token is
ever selected; a transport without a security layer proceeds with ssl
false and the default token http/1.1. -/
theorem claim_c9_handshake_phase (env : RunEnv) :
    ((env.handshake = HandshakeOutcome.sslBroken ∨
        env.handshake = HandshakeOutcome.sslTooSlow) →
      (serverRun env).raised = none ∧
      (serverRun env).trace = [Action.doHandshake] ∧
      Action.initiate ∉ (serverRun env).trace ∧
      (∀ e, Action.handle e ∉ (serverRun env).trace) ∧
      Action.sendEofCall ∉ (serverRun env).trace ∧
      Action.aclose ∉ (serverRun env).trace ∧
      (serverRun env).ssl = none ∧ (serverRun env).alpn = none) ∧
    (env.handshake = HandshakeOutcome.notSSL →
      (serverRun env).ssl = some false ∧
      (serverRun env).alpn = some (some "http/1.1")) := by
  constructor
  · rintro (h | h) <;> simp [serverRun, h]
  · intro h
    simp [serverRun, h, runBody]

/-- C9 witness: a timed-out handshake leaves only the handshake attempt
in the trace, and a plain transport negotiates http/1.1 with ssl false. -/
theorem claim_c9_witness :
    (serverRun ⟨HandshakeOutcome.sslTooSlow, [], [], [], []⟩).trace =
      [Action.doHandshake] ∧
    (serverRun ⟨HandshakeOutcome.notSSL, [], [], [], []⟩).ssl = some false ∧
    (serverRun ⟨HandshakeOutcome.notSSL, [], [], [], []⟩).alpn =
      some (some "http/1.1") :=
  ⟨((claim_c9_handshake_phase ⟨HandshakeOutcome.sslTooSlow, [], [], [], []⟩).1
      (Or.inr rfl)).2.1,
   ((claim_c9_handshake_phase ⟨HandshakeOutcome.notSSL, [], [], [], []⟩).2 rfl).1,
   ((claim_c9_handshake_phase ⟨HandshakeOutcome.notSSL, [], [], [], []⟩).2 rfl).2⟩

/-- C10: Server._close never raises for any of the enumerated transport
states (send_eof succeeding, or raising BrokenResourceError because the
peer is gone, AttributeError because the stream has no send_eof,
BusyResourceError, or ClosedResourceError), always proceeds to the full
close of the transport, and calling it again on the already-closed
result is equally safe, so repeated calls are safe. -/
theorem claim_c10_close_total (r1 r2 : Option Exc) (c : ConnState)
    (h1 : r1 = none ∨ ∃ e, r1 = some e ∧ closeCaught e = true)
    (h2 : r2 = none ∨ ∃ e, r2 = some e ∧ closeCaught e = true) :
    (closeStep r1 c).2.2 = none ∧
    Action.aclose ∈ (closeStep r1 c).2.1 ∧
    (closeStep r1 c).1.streamClosed = true ∧
    (closeStep r2 (closeStep r1 c).1).2.2 = none ∧
    Action.aclose ∈ (closeStep r2 (closeStep r1 c).1).2.1 := by
  have key : ∀ r (d : ConnState),
      (r = none ∨ ∃ e, r = some e ∧ closeCaught e = true) →
      (closeStep r d).2.2 = none ∧ Action.aclose ∈ (closeStep r d).2.1 ∧
        (closeStep r d).1.streamClosed = true := by
    intro r d hr
    rcases hr with rfl | ⟨e, rfl, he⟩
    · exact ⟨rfl, by simp [closeStep], rfl⟩
    · simp [closeStep, he]
  obtain ⟨a1, a2, a3⟩ := key r1 c h1
  obtain ⟨b1, b2, _⟩ := key r2 (closeStep r1 c).1 h2
  exact ⟨a1, a2, a3, b1, b2⟩

/-- C10 witness: send_eof raising BrokenResourceError, then
ClosedResourceError on the repeated call, both swallowed, with the full
close reached each time. -/
theorem claim_c10_witness :
    (closeStep (some Exc.brokenResource) ⟨false, none, []⟩).2.2 = none ∧
    Action.aclose ∈ (closeStep (some Exc.brokenResource) ⟨false, none, []⟩).2.1 ∧
    (closeStep (some Exc.brokenResource) ⟨false, none, []⟩).1.streamClosed = true ∧
    (closeStep (some Exc.closedResource)
      (closeStep (some Exc.brokenResource) ⟨false, none, []⟩).1).2.2 = none ∧
    Action.aclose ∈ (closeStep (some Exc.closedResource)
      (closeStep (some Exc.brokenResource) ⟨false, none, []⟩).1).2.1 :=
  claim_c10_close_total (some Exc.brokenResource) (some Exc.closedResource)
    ⟨false, none, []⟩ (Or.inr ⟨Exc.brokenResource, rfl, rfl⟩)
    (Or.inr ⟨Exc.closedResource, rfl, rfl⟩)

/-- C7: for protocol_send with the stream open and the write outcome in
the claimed set (success, or the peer having reset the connection): a
RawData event puts exactly one send_all on the wire, strictly bracketed
by acquiring and releasing the write lock (which is what serializes
writes so no two are in flight), and a BrokenResourceError from the
write is swallowed so nothing propagates to the caller; a Closed event
performs the full teardown, leaving the transport closed; and after
either event the keep-alive timer is unconditionally re-evaluated (the
trace ends in a kaRefresh followed only by timer bookkeeping). -/
theorem claim_c7_protocol_send (wr : WriteRes) (s : IoState) (d : Bytes)
    (hopen : s.conn.streamClosed = false) (hwr : wr ≠ WriteRes.closedResource) :
    ((protocolSend (.rawData d) wr s).2.2 = none ∧
      ∃ b rest, (protocolSend (.rawData d) wr s).2.1 =
          [Action.lockAcquire, Action.sendAll d, Action.lockRelease] ++
            (Action.kaRefresh b :: rest) ∧
        (Action.kaRefresh b :: rest).all isKaAction = true) ∧
    ((protocolSend .closed wr s).2.2 = none ∧
      (protocolSend .closed wr s).1.conn.streamClosed = true ∧
      ∃ b rest, (protocolSend .closed wr s).2.1 =
          [Action.sendEofCall, Action.aclose] ++ (Action.kaRefresh b :: rest) ∧
        (Action.kaRefresh b :: rest).all isKaAction = true) := by
  obtain ⟨b1, r1, hs1⟩ := updateKA_trace_shape s
  have hall1 := updateKA_trace_kaOnly s
  rw [hs1] at hall1
  obtain ⟨b2, r2, hs2⟩ := updateKA_trace_shape (closeLoop s).1
  have hall2 := updateKA_trace_kaOnly (closeLoop s).1
  rw [hs2] at hall2
  have hexc := closeLoop_exc s
  constructor
  · cases wr with
    | ok =>
      refine ⟨by simp [protocolSend, hopen, WriteRes.toExc], b1, r1, ?_, hall1⟩
      simp [protocolSend, hopen, WriteRes.toExc, hs1]
    | brokenResource =>
      refine ⟨by simp [protocolSend, hopen, WriteRes.toExc], b1, r1, ?_, hall1⟩
      simp [protocolSend, hopen, WriteRes.toExc, hs1]
    | closedResource => exact absurd rfl hwr
  · refine ⟨?_, ?_, b2, r2, ?_, hall2⟩
    · simp [protocolSend, hexc]
    · simp [protocolSend, hexc, updateKA_streamClosed, closeLoop_streamClosed]
    · simp [protocolSend, hexc, hs2, closeLoop_trace]

/-- C7 witness: a successful write of one chunk under the lock followed
by the keep-alive refresh, and a Closed event tearing down, from a fresh
open connection. -/
theorem claim_c7_witness :
    ((protocolSend (.rawData [7]) WriteRes.ok
        ⟨⟨false, none, []⟩, [true, false], [EofRes.ok]⟩).2.2 = none ∧
      ∃ b rest, (protocolSend (.rawData [7]) WriteRes.ok
          ⟨⟨false, none, []⟩, [true, false], [EofRes.ok]⟩).2.1 =
          [Action.lockAcquire, Action.sendAll [7], Action.lockRelease] ++
            (Action.kaRefresh b :: rest) ∧
        (Action.kaRefresh b :: rest).all isKaAction = true) ∧
    ((protocolSend .closed WriteRes.ok
        ⟨⟨false, none, []⟩, [true, false], [EofRes.ok]⟩).2.2 = none ∧
      (protocolSend .closed WriteRes.ok
        ⟨⟨false, none, []⟩, [true, false], [EofRes.ok]⟩).1.conn.streamClosed = true ∧
      ∃ b rest, (protocolSend .closed WriteRes.ok
          ⟨⟨false, none, []⟩, [true, false], [EofRes.ok]⟩).2.1 =
          [Action.sendEofCall, Action.aclose] ++ (Action.kaRefresh b :: rest) ∧
        (Action.kaRefresh b :: rest).all isKaAction = true) :=
  claim_c7_protocol_send WriteRes.ok ⟨⟨false, none, []⟩, [true, false], [EofRes.ok]⟩
    [7] rfl (fun h => WriteRes.noConfusion h)

/-- C4: for a sequence of successful reads of nonempty chunks followed
by the terminal empty read, the read loop delivers to protocol.handle
exactly one RawData event per read, in arrival order, with no event
dropped or duplicated, ending with RawData of the empty chunk, after
which the loop exits, leaving any further outcomes unconsumed. -/
theorem claim_c4_read_order (datas : List Bytes) (extra : List ReadOutcome)
    (s : IoState) (hc : s.conn.streamClosed = false)
    (hne : ∀ d ∈ datas, d ≠ []) :
    handleEvents
        (readData (datas.map ReadOutcome.ok ++ ReadOutcome.ok [] :: extra) s).2.2 =
      datas.map InEvent.rawData ++ [InEvent.rawData []] ∧
    (readData (datas.map ReadOutcome.ok ++ ReadOutcome.ok [] :: extra) s).1 = extra :=
  readData_events datas extra s hc hne

/-- C4 witness: the bytes of "GET" then a zero-length read produce
exactly RawData("GET") followed by RawData("") and the loop exits. -/
theorem claim_c4_witness :
    handleEvents (readData [ReadOutcome.ok [71, 69, 84], ReadOutcome.ok []]
        ⟨⟨false, none, []⟩, [true, false], []⟩).2.2 =
      [InEvent.rawData [71, 69, 84], InEvent.rawData []] ∧
    (readData [ReadOutcome.ok [71, 69, 84], ReadOutcome.ok []]
        ⟨⟨false, none, []⟩, [true, false], []⟩).1 = [] := by
  have hmain := claim_c4_read_order [[71, 69, 84]] []
    ⟨⟨false, none, []⟩, [true, false], []⟩ rfl (by decide)
  simpa using hmain

/-- C1 is false on the code: the scope boundary catches only
trio.MultiError, and trio re-raises a lone surviving exception
unwrapped; with exactly one unexpected failure surfacing from the scope,
run() propagates it past its own boundary. -/
theorem claim_c1_counterexample :
    (serverRun ⟨HandshakeOutcome.notSSL, [Exc.otherException], [], [], []⟩).raised =
      some Exc.otherException := rfl

/-- C1 amended: run() returns normally on handshake failure or timeout,
and, once the connection phase is reached, exactly when the exceptions
surviving to the nursery boundary collapse to nothing or to a genuine
MultiError (two or more failures, or a lone MultiError), which the
except trio.MultiError clause swallows; a single surviving non-MultiError
failure escapes run().  The final teardown executes in every
connection-phase run regardless. -/
theorem claim_c1_run_exceptions (env : RunEnv) :
    ((env.handshake = HandshakeOutcome.sslBroken ∨
        env.handshake = HandshakeOutcome.sslTooSlow) →
      (serverRun env).raised = none) ∧
    (reachesBody env →
      (((serverRun env).raised = none) ↔
        (collapse env.scopeExcs = none ∨
          ∃ es, collapse env.scopeExcs = some (Exc.multiError es))) ∧
      1 ≤ countCloses (serverRun env).trace) := by
  have hiff : ∀ ssl alpn, ((runBody env ssl alpn).raised = none ↔
      (collapse env.scopeExcs = none ∨
        ∃ es, collapse env.scopeExcs = some (Exc.multiError es))) := by
    intro ssl alpn
    rw [runBody_raised]
    cases hcol : collapse env.scopeExcs with
    | none => simp
    | some e => cases e <;> simp
  have hclose : ∀ ssl alpn, 1 ≤ countCloses (runBody env ssl alpn).trace := by
    intro ssl alpn
    rw [runBody_trace, countCloses_append, countCloses_append, closeLoop_trace]
    have htrC : countCloses [Action.sendEofCall, Action.aclose] = 1 := by decide
    rw [htrC]
    omega
  constructor
  · rintro (h | h) <;> simp [serverRun, h]
  · rintro (hns | ⟨a, hok⟩)
    · exact ⟨by simpa [serverRun, hns] using hiff false (some "http/1.1"),
        by simpa [serverRun, hns] using hclose false (some "http/1.1")⟩
    · exact ⟨by simpa [serverRun, hok] using hiff true a,
        by simpa [serverRun, hok] using hclose true a⟩

/-- C1 witness: a broken handshake returns cleanly, and a run whose
scope boundary sees one failure still executes the final teardown. -/
theorem claim_c1_witness :
    (serverRun ⟨HandshakeOutcome.sslBroken, [Exc.otherException], [], [], []⟩).raised =
      none ∧
    1 ≤ countCloses (serverRun
      ⟨HandshakeOutcome.notSSL, [Exc.otherException], [], [], []⟩).trace :=
  ⟨(claim_c1_run_exceptions
      ⟨HandshakeOutcome.sslBroken, [Exc.otherException], [], [], []⟩).1 (Or.inl rfl),
   ((claim_c1_run_exceptions
      ⟨HandshakeOutcome.notSSL, [Exc.otherException], [], [], []⟩).2 (Or.inl rfl)).2⟩

/-- C2 is false on the code: on the slow-read-timeout path teardown runs
twice, once in the timeout branch of the read loop and once in the
finally clause of run(); in this run the trace holds two send_eof
attempts, so teardown did not execute exactly once. -/
theorem claim_c2_counterexample :
    countCloses (serverRun
      ⟨HandshakeOutcome.notSSL, [], [ReadOutcome.tooSlow], [true], [EofRes.ok]⟩).trace =
      2 := by
  decide

/-- C2 amended: every run reaching the connection phase executes
teardown at least once, and exactly once when no slow-read timeout
occurs; on the slow-read path the timeout branch and the finally clause
of run() each execute _close, the second time against the already-closed
transport, which _close tolerates. -/
theorem claim_c2_teardown (env : RunEnv) (h : reachesBody env) :
    1 ≤ countCloses (serverRun env).trace ∧
    (ReadOutcome.tooSlow ∉ env.reads → countCloses (serverRun env).trace = 1) := by
  have hmain : ∀ ssl alpn, 1 ≤ countCloses (runBody env ssl alpn).trace ∧
      (ReadOutcome.tooSlow ∉ env.reads →
        countCloses (runBody env ssl alpn).trace = 1) := by
    intro ssl alpn
    rw [runBody_trace, countCloses_append, countCloses_append, closeLoop_trace,
      prefix_no_closes]
    have htrC : countCloses [Action.sendEofCall, Action.aclose] = 1 := by decide
    rw [htrC]
    constructor
    · omega
    · intro hts
      rw [readData_countCloses env.reads _ hts]
  rcases h with hns | ⟨a, hok⟩
  · exact ⟨by simpa [serverRun, hns] using (hmain false (some "http/1.1")).1,
      fun hts => by simpa [serverRun, hns] using (hmain false (some "http/1.1")).2 hts⟩
  · exact ⟨by simpa [serverRun, hok] using (hmain true a).1,
      fun hts => by simpa [serverRun, hok] using (hmain true a).2 hts⟩

/-- C2 witness: a run with one data chunk and the terminal empty read
tears the connection down exactly once. -/
theorem claim_c2_witness :
    countCloses (serverRun ⟨HandshakeOutcome.notSSL, [],
      [ReadOutcome.ok [5], ReadOutcome.ok []], [true, false], [EofRes.ok]⟩).trace = 1 :=
  (claim_c2_teardown ⟨HandshakeOutcome.notSSL, [],
      [ReadOutcome.ok [5], ReadOutcome.ok []], [true, false], [EofRes.ok]⟩
    (Or.inl rfl)).2 (by decide)

/-- C3 is false on the code: after a slow-read timeout the loop feeds
Closed to the protocol engine and tears down, but then iterates again
and attempts one more receive_some on the transport: in this run the
trace after the handle(Closed) call contains a receive attempt. -/
theorem claim_c3_counterexample :
    countReceives (afterClosed (serverRun
      ⟨HandshakeOutcome.notSSL, [], [ReadOutcome.tooSlow], [false], [EofRes.ok]⟩).trace) =
      1 := by
  decide

/-- C3 amended: once Closed has been fed to the protocol engine, no
further protocol event is delivered and no write is attempted on the
transport, but the read loop performs at most one further receive
attempt (its re-entry after the timeout-branch teardown), which hits the
closed stream, raises ClosedResourceError and ends the loop. -/
theorem claim_c3_after_closed (env : RunEnv) (h : reachesBody env) :
    countReceives (afterClosed (serverRun env).trace) ≤ 1 ∧
    countSendAlls (afterClosed (serverRun env).trace) = 0 ∧
    countHandles (afterClosed (serverRun env).trace) = 0 := by
  have hmain : ∀ ssl alpn,
      countReceives (afterClosed (runBody env ssl alpn).trace) ≤ 1 ∧
      countSendAlls (afterClosed (runBody env ssl alpn).trace) = 0 ∧
      countHandles (afterClosed (runBody env ssl alpn).trace) = 0 := by
    intro ssl alpn
    rw [runBody_trace, afterClosed_append_not _ (prefix_no_closed env)]
    rcases readData_afterClosed env.reads (updateKeepAlive (bodyInit env)).1
        (bodyInit_KA_open env) with hnone | hsome
    · rw [afterClosed_append_not _ hnone, closeLoop_trace]
      exact ⟨by decide, by decide, by decide⟩
    · cases hcont : containsClosed
          (readData env.reads (updateKeepAlive (bodyInit env)).1).2.2 with
      | false =>
        rw [afterClosed_of_not_contains hcont] at hsome
        cases hsome
      | true =>
        rw [afterClosed_append_contains _ hcont, hsome, closeLoop_trace]
        exact ⟨by decide, by decide, by decide⟩
  rcases h with hns | ⟨a, hok⟩
  · have hm := hmain false (some "http/1.1")
    exact ⟨by simpa [serverRun, hns] using hm.1, by simpa [serverRun, hns] using hm.2.1,
      by simpa [serverRun, hns] using hm.2.2⟩
  · have hm := hmain true a
    exact ⟨by simpa [serverRun, hok] using hm.1, by simpa [serverRun, hok] using hm.2.1,
      by simpa [serverRun, hok] using hm.2.2⟩

/-- C3 witness: in the slow-read-timeout run, the trace after the Closed
event holds one receive attempt, no write and no protocol event. -/
theorem claim_c3_witness :
    countReceives (afterClosed (serverRun ⟨HandshakeOutcome.notSSL, [],
      [ReadOutcome.tooSlow], [false], [EofRes.ok]⟩).trace) ≤ 1 ∧
    countSendAlls (afterClosed (serverRun ⟨HandshakeOutcome.notSSL, [],
      [ReadOutcome.tooSlow], [false], [EofRes.ok]⟩).trace) = 0 ∧
    countHandles (afterClosed (serverRun ⟨HandshakeOutcome.notSSL, [],
      [ReadOutcome.tooSlow], [false], [EofRes.ok]⟩).trace) = 0 :=
  claim_c3_after_closed ⟨HandshakeOutcome.notSSL, [],
    [ReadOutcome.tooSlow], [false], [EofRes.ok]⟩ (Or.inl rfl)

end HypercornTrioServer
